import Mathlib

/-!
# CQRS blog service: event bus, write store, read store, query handler

A shallow embedding of `demo-cqrs-grpc`:

* `internal/event/bus.go`        (namespace `event`)
* `internal/store/read_store.go` (namespace `store`, `ReadStore`)
* `internal/store/write_store.go` (namespace `store`, `WriteStore`)
* `internal/query/handler.go`    (namespace `query`)

Modelling conventions.

* A Go `map[string]V` is a `GoMap V`: a key/value list whose keys are pairwise
  distinct.  The position of an entry in that list carries no meaning: a
  `for ... range` loop over the map visits the entries in an order chosen by the
  runtime, which is modelled by a `MapRange m`, an arbitrary permutation of the
  entries that the looping function receives as an argument.
* `*Post` values stored in the map are modelled by the `Post` they point to; each
  map slot owns its own `Post` (it is allocated in `handlePostCreated`), so the
  in-place mutation of `handlePostUpdated` is a replacement of that slot's value.
* Go `int` is the 64 bit two's complement integer: values are `Int`, and
  `offset + limit` is wrapped by `wrapInt`.  `int32(x)` is `wrapInt32`.
* A run-time panic (slice bounds out of range) is `none`.
* Go strings are modelled as `String` (sequences of runes).  The Unicode tables
  behind `strings.ToLower` and `strings.EqualFold` are parameters (`CaseTables`).
* The mutex, the log output and the spawning of goroutines are not modelled:
  `Publish` returns the list of handler invocations it initiates.
* The SQL engine and the sources of fresh identifiers and of time are inputs:
  `DB` gives the engine's answer to each statement.
-/

set_option autoImplicit false

/-! ## Go runtime primitives -/

/-- Go `map[string]V`: key/value entries with pairwise distinct keys. -/
structure GoMap (V : Type) where
  entries : List (String × V)
  nodup : (entries.map Prod.fst).Nodup

namespace GoMap

variable {V : Type}

/-- Go `make(map[string]V)`. -/
def empty : GoMap V := ⟨[], List.nodup_nil⟩

/-- Go `len(m)`. -/
def len (m : GoMap V) : Nat := m.entries.length

/-- Go `v, ok := m[k]` (`none` when `ok` is false). -/
def get (m : GoMap V) (k : String) : Option V := List.lookup k m.entries

/-- Go `m[k] = v`: the slot of `k` now holds `v`, whether or not `k` was present. -/
def set (m : GoMap V) (k : String) (v : V) : GoMap V :=
  ⟨(k, v) :: m.entries.filter (fun e => !decide (e.1 = k)), by
    rw [List.map_cons, List.nodup_cons]
    refine ⟨?_, ((List.filter_sublist _).map Prod.fst).nodup m.nodup⟩
    intro hmem
    obtain ⟨e, he, hk⟩ := List.mem_map.1 hmem
    have := (List.mem_filter.1 he).2
    simp at this
    exact this hk⟩

/-- Go `delete(m, k)`; nothing happens when `k` is absent. -/
def delete (m : GoMap V) (k : String) : GoMap V :=
  ⟨m.entries.filter (fun e => !decide (e.1 = k)),
    ((List.filter_sublist _).map Prod.fst).nodup m.nodup⟩

/-- Mutation through the pointer stored under `k`: `p := m[k]; *p = f(*p)`.
Nothing happens when `k` is absent. -/
def modify (m : GoMap V) (k : String) (f : V → V) : GoMap V :=
  ⟨m.entries.map (fun e => if e.1 = k then (e.1, f e.2) else e), by
    have hkeys : (m.entries.map (fun e => if e.1 = k then (e.1, f e.2) else e)).map Prod.fst
        = m.entries.map Prod.fst := by
      rw [List.map_map]
      apply List.map_congr_left
      intro a _
      by_cases h : a.1 = k <;> simp [h]
    rw [hkeys]
    exact m.nodup⟩

end GoMap

/-- The sequence of entries visited by one `for k, v := range m` loop: the runtime
picks the order, so it is any permutation of the entries. -/
structure MapRange {V : Type} (m : GoMap V) where
  order : List (String × V)
  perm : order.Perm m.entries

/-- One possible iteration order: the order of the representation. -/
def MapRange.stored {V : Type} (m : GoMap V) : MapRange m := ⟨m.entries, List.Perm.refl _⟩

/-- Go `int` arithmetic is modulo `2^64`, read as a signed value. -/
def wrapInt (x : Int) : Int := (x + 2 ^ 63) % 2 ^ 64 - 2 ^ 63

/-- The conversion `int32(x)`. -/
def wrapInt32 (x : Int) : Int := (x + 2 ^ 31) % 2 ^ 32 - 2 ^ 31

/-- The slice expression `xs[lo:hi]` on a slice whose capacity equals its length:
it panics (`none`) unless `0 <= lo <= hi <= len(xs)`. -/
def sliceExpr {α : Type} (xs : List α) (lo hi : Int) : Option (List α) :=
  if 0 ≤ lo ∧ lo ≤ hi ∧ hi ≤ (xs.length : Int) then
    some ((xs.drop lo.toNat).take (hi - lo).toNat)
  else none

/-- The Unicode data used by package `strings`: `toLower` is `unicode.ToLower`,
`sameFold a b` says that `b` is reached from `a` by iterating `unicode.SimpleFold`. -/
structure CaseTables where
  toLower : Char → Char
  sameFold : Char → Char → Bool

/-- ASCII-only case tables, for concrete evaluation. -/
def CaseTables.ascii : CaseTables :=
  ⟨Char.toLower, fun a b => a.toLower == b.toLower⟩

namespace strings

/-- Go `strings.ToLower`: every rune is mapped through `unicode.ToLower`. -/
def ToLower (u : CaseTables) (s : String) : String := ⟨s.data.map u.toLower⟩

/-- Go `strings.Contains s substr`: `substr` occurs in `s` at some position. -/
def Contains (s substr : String) : Bool :=
  s.data.tails.any (fun t => substr.data.isPrefixOf t)

/-- Rune by rune comparison of `strings.EqualFold`. -/
def equalFoldRunes (u : CaseTables) : List Char → List Char → Bool
  | [], [] => true
  | a :: s, b :: t => (a == b || u.sameFold a b) && equalFoldRunes u s t
  | _, _ => false

/-- Go `strings.EqualFold`. -/
def EqualFold (u : CaseTables) (s t : String) : Bool := equalFoldRunes u s.data t.data

/-- Go `strings.Join`. -/
def Join (elems : List String) (sep : String) : String := sep.intercalate elems

end strings

/-! ## internal/event/bus.go -/

namespace event

def PostCreated : String := "post.created"
def PostUpdated : String := "post.updated"
def PostDeleted : String := "post.deleted"

/-- Go `event.Post`. -/
structure Post where
  ID : String
  Title : String
  Content : String
  Author : String
  Tags : List String
  CreatedAt : Int
  UpdatedAt : Int
  deriving DecidableEq, Repr

/-- Go `event.Event` (the field `Type` is spelled `Typ`). -/
structure Event where
  Typ : String
  Data : Post
  deriving DecidableEq, Repr

/-- Go `event.Bus`, over an arbitrary type `H` of handlers. -/
structure Bus (H : Type) where
  handlers : GoMap (List H)

variable {H : Type}

/-- Go `NewBus`. -/
def NewBus : Bus H := ⟨GoMap.empty⟩

/-- The slice read by `b.handlers[eventType]`: `nil` for a missing key. -/
def Bus.registered (b : Bus H) (eventType : String) : List H :=
  (b.handlers.get eventType).getD []

/-- Go `Bus.Subscribe`: `b.handlers[eventType] = append(b.handlers[eventType], handler)`. -/
def Bus.Subscribe (b : Bus H) (eventType : String) (handler : H) : Bus H :=
  ⟨b.handlers.set eventType (b.registered eventType ++ [handler])⟩

/-- Go `Bus.Publish`: the invocations `go handler(e)` it starts, in the order of the loop. -/
def Bus.Publish (b : Bus H) (e : Event) : List (H × Event) :=
  match b.handlers.get e.Typ with
  | some handlers => handlers.map (fun handler => (handler, e))
  | none => []

end event

/-! ## internal/store/read_store.go -/

namespace store

/-- Go `store.Post`. -/
structure Post where
  ID : String
  Title : String
  Content : String
  Author : String
  Tags : List String
  CreatedAt : Int
  UpdatedAt : Int
  deriving DecidableEq, Repr

/-- Go `store.ReadStore` (without its mutex). -/
structure ReadStore where
  posts : GoMap Post

/-- The handlers a read store registers: state transformers of the store. -/
abbrev Handler := event.Event → ReadStore → ReadStore

/-- Go `ReadStore.handlePostCreated`. -/
def ReadStore.handlePostCreated (e : event.Event) (s : ReadStore) : ReadStore :=
  ⟨s.posts.set e.Data.ID
    { ID := e.Data.ID
      Title := e.Data.Title
      Content := e.Data.Content
      Author := e.Data.Author
      Tags := e.Data.Tags
      CreatedAt := e.Data.CreatedAt
      UpdatedAt := e.Data.UpdatedAt }⟩

/-- Go `ReadStore.handlePostUpdated`. -/
def ReadStore.handlePostUpdated (e : event.Event) (s : ReadStore) : ReadStore :=
  match s.posts.get e.Data.ID with
  | some _ =>
    ⟨s.posts.modify e.Data.ID (fun post =>
      { post with
        Title := e.Data.Title
        Content := e.Data.Content
        Tags := e.Data.Tags
        UpdatedAt := e.Data.UpdatedAt })⟩
  | none => s

/-- Go `ReadStore.handlePostDeleted`. -/
def ReadStore.handlePostDeleted (e : event.Event) (s : ReadStore) : ReadStore :=
  ⟨s.posts.delete e.Data.ID⟩

/-- Go `NewReadStore`: the empty store, and the bus after the three subscriptions. -/
def NewReadStore (bus : event.Bus Handler) : ReadStore × event.Bus Handler :=
  let rs : ReadStore := ⟨GoMap.empty⟩
  let bus := bus.Subscribe event.PostCreated ReadStore.handlePostCreated
  let bus := bus.Subscribe event.PostUpdated ReadStore.handlePostUpdated
  let bus := bus.Subscribe event.PostDeleted ReadStore.handlePostDeleted
  (rs, bus)

/-- Go `ReadStore.GetPost`: the pointer (`none` for nil) and the `exists` flag. -/
def ReadStore.GetPost (s : ReadStore) (id : String) : Option Post × Bool :=
  let post := s.posts.get id
  (post, post.isSome)

/-- Go `ReadStore.ListPosts`; `r` is the order in which the `range` loop visits the map. -/
def ReadStore.ListPosts (s : ReadStore) (r : MapRange s.posts) (limit offset : Int) :
    Option (List Post × Int) :=
  let all := r.order.map Prod.snd
  let total : Int := all.length
  if offset ≥ (all.length : Int) then
    some ([], total)
  else
    let end0 := wrapInt (offset + limit)
    let end1 := if end0 > (all.length : Int) then (all.length : Int) else end0
    (sliceExpr all offset end1).map (fun page => (page, total))

/-- Go `ReadStore.hasAnyTag`. -/
def ReadStore.hasAnyTag (u : CaseTables) (postTags searchTags : List String) : Bool :=
  searchTags.any (fun st => postTags.any (fun pt => strings.EqualFold u st pt))

/-- The test in the body of the loop of `SearchPosts`, `query` already lower-cased. -/
def ReadStore.searchMatch (u : CaseTables) (query : String) (tags : List String)
    (post : Post) : Bool :=
  let queryMatch := query == "" ||
    strings.Contains (strings.ToLower u post.Title) query ||
    strings.Contains (strings.ToLower u post.Content) query
  let tagMatch := tags.length == 0 || ReadStore.hasAnyTag u post.Tags tags
  queryMatch && tagMatch

/-- Go `ReadStore.SearchPosts`; `r` is the order in which the `range` loop visits the map. -/
def ReadStore.SearchPosts (u : CaseTables) (s : ReadStore) (r : MapRange s.posts)
    (query : String) (tags : List String) : List Post :=
  let query := strings.ToLower u query
  (r.order.map Prod.snd).filter (ReadStore.searchMatch u query tags)

/-! ## internal/store/write_store.go -/

/-- Go `error` values returned by the write store. -/
inductive Error where
  | ErrNoRows
  | other (msg : String)
  deriving DecidableEq, Repr

/-- A statement argument. -/
inductive SqlArg where
  | text (s : String)
  | int (n : Int)
  deriving DecidableEq, Repr

/-- The SQL engine as seen by the write store: `Exec` answers a statement with the
value of `RowsAffected()` or an error, `QueryRow` with the scanned
`(author, created_at)` or an error. -/
structure DB where
  Exec : String → List SqlArg → Except Error Int
  QueryRow : String → List SqlArg → Except Error (String × Int)

def insertSQL : String :=
  "INSERT INTO posts (id, title, content, author, tags, created_at, updated_at) VALUES (?, ?, ?, ?, ?, ?, ?)"
def updateSQL : String :=
  "UPDATE posts SET title = ?, content = ?, tags = ?, updated_at = ? WHERE id = ?"
def selectSQL : String := "SELECT author, created_at FROM posts WHERE id = ?"
def deleteSQL : String := "DELETE FROM posts WHERE id = ?"

/-- Go `store.WriteStore`. -/
structure WriteStore (H : Type) where
  db : DB
  bus : event.Bus H

variable {H : Type}

/-- Go `WriteStore.CreatePost`; `newID` is `uuid.New().String()`, `now` is
`time.Now().Unix()`.  Returns the Go result `(id, err)` and the handler
invocations started. -/
def WriteStore.CreatePost (s : WriteStore H) (newID : String) (now : Int)
    (title content author : String) (tags : List String) :
    (String × Option Error) × List (H × event.Event) :=
  let id := newID
  let tagsStr := strings.Join tags ","
  match s.db.Exec insertSQL
      [.text id, .text title, .text content, .text author, .text tagsStr, .int now, .int now] with
  | .error err => (("", some err), [])
  | .ok _ =>
    let started := s.bus.Publish
      { Typ := event.PostCreated
        Data :=
          { ID := id
            Title := title
            Content := content
            Author := author
            Tags := tags
            CreatedAt := now
            UpdatedAt := now } }
    ((id, none), started)

/-- Go `WriteStore.UpdatePost`; returns the Go result `err` and the invocations started. -/
def WriteStore.UpdatePost (s : WriteStore H) (now : Int)
    (id title content : String) (tags : List String) :
    Option Error × List (H × event.Event) :=
  let tagsStr := strings.Join tags ","
  match s.db.Exec updateSQL
      [.text title, .text content, .text tagsStr, .int now, .text id] with
  | .error err => (some err, [])
  | .ok rows =>
    if rows = 0 then (some Error.ErrNoRows, [])
    else
      match s.db.QueryRow selectSQL [.text id] with
      | .error err => (some err, [])
      | .ok (author, createdAt) =>
        let started := s.bus.Publish
          { Typ := event.PostUpdated
            Data :=
              { ID := id
                Title := title
                Content := content
                Author := author
                Tags := tags
                CreatedAt := createdAt
                UpdatedAt := now } }
        (none, started)

/-- Go `WriteStore.DeletePost`; returns the Go result `err` and the invocations started. -/
def WriteStore.DeletePost (s : WriteStore H) (id : String) :
    Option Error × List (H × event.Event) :=
  match s.db.Exec deleteSQL [.text id] with
  | .error err => (some err, [])
  | .ok rows =>
    if rows = 0 then (some Error.ErrNoRows, [])
    else
      let started := s.bus.Publish
        { Typ := event.PostDeleted
          Data :=
            { ID := id
              Title := ""
              Content := ""
              Author := ""
              Tags := []
              CreatedAt := 0
              UpdatedAt := 0 } }
      (none, started)

/-- The projection after the started invocations have run, here one after the
other in the order in which they were started. -/
def runStarted (started : List (Handler × event.Event)) (s : ReadStore) : ReadStore :=
  started.foldl (fun acc inv => inv.1 inv.2 acc) s

end store

/-! ## internal/query/handler.go -/

namespace query

/-- Modelled from the spec: the generated protobuf package `proto` is not among the
sources.  `pb.Post` has the seven fields the handler fills in. -/
structure PbPost where
  Id : String
  Title : String
  Content : String
  Author : String
  Tags : List String
  CreatedAt : Int
  UpdatedAt : Int
  deriving DecidableEq, Repr

/-- Modelled from the spec: `pb.ListPostsRequest`, with the two `int32` fields the
handler reads. -/
structure ListPostsRequest where
  Limit : Int
  Offset : Int
  deriving DecidableEq, Repr

/-- Modelled from the spec: `pb.ListPostsResponse`, with the two fields the handler
fills in. -/
structure ListPostsResponse where
  Posts : List PbPost
  Total : Int
  deriving DecidableEq, Repr

/-- The range of `int32`. -/
def isInt32 (x : Int) : Prop := -(2 ^ 31) ≤ x ∧ x < 2 ^ 31

instance (x : Int) : Decidable (isInt32 x) := by unfold isInt32; infer_instance

/-- The copy of a `store.Post` into a `pb.Post`. -/
def toPb (p : store.Post) : PbPost :=
  { Id := p.ID
    Title := p.Title
    Content := p.Content
    Author := p.Author
    Tags := p.Tags
    CreatedAt := p.CreatedAt
    UpdatedAt := p.UpdatedAt }

/-- Go `Handler.ListPosts` of the query service; `none` when the call panics. -/
def ListPosts (readStore : store.ReadStore) (r : MapRange readStore.posts)
    (req : ListPostsRequest) : Option ListPostsResponse :=
  let limit := req.Limit
  let limit := if limit ≤ 0 then 10 else limit
  let offset := req.Offset
  match readStore.ListPosts r limit offset with
  | none => none
  | some (posts, total) =>
    some { Posts := posts.map toPb, Total := wrapInt32 total }

end query

/-! ## The invariant of the projection -/

namespace store

/-- Every entry's key is the `ID` of the post stored under it. -/
def ReadStore.Keyed (s : ReadStore) : Prop := ∀ en ∈ s.posts.entries, en.2.ID = en.1

end store

/-! ## Concrete stores and events used in the examples -/

namespace store

/-- A database that accepts every statement and reports one affected row. -/
def okDB : DB := ⟨fun _ _ => .ok 1, fun _ _ => .ok ("alice", 5)⟩

/-- A database in which no row matches: every statement affects zero rows. -/
def emptyDB : DB := ⟨fun _ _ => .ok 0, fun _ _ => .error Error.ErrNoRows⟩

/-- The read store and the bus as `main` wires them. -/
def wiredStore : ReadStore := (NewReadStore event.NewBus).1
def wiredBus : event.Bus Handler := (NewReadStore event.NewBus).2

def evCreateX : event.Event :=
  ⟨event.PostCreated, ⟨"X", "Hello", "World", "alice", ["go", "demo"], 5, 5⟩⟩
def evCreateY : event.Event :=
  ⟨event.PostCreated, ⟨"Y", "Second", "Text", "bob", ["Go"], 6, 6⟩⟩
def evUpdateX : event.Event :=
  ⟨event.PostUpdated, ⟨"X", "Hello2", "World2", "mallory", ["demo"], 99, 7⟩⟩
def evDeleteX : event.Event :=
  ⟨event.PostDeleted, ⟨"X", "", "", "", [], 0, 0⟩⟩

def postX : Post := ⟨"X", "Hello", "World", "alice", ["go", "demo"], 5, 5⟩
def postY : Post := ⟨"Y", "Second", "Text", "bob", ["Go"], 6, 6⟩

/-- The projection holding the single post `X`. -/
def storeX : ReadStore := ReadStore.handlePostCreated evCreateX wiredStore

/-- The projection holding the posts `X` and `Y`. -/
def storeXY : ReadStore := ReadStore.handlePostCreated evCreateY storeX

/-- The iteration of `storeXY` that visits `X` before `Y`. -/
def rangeXY : MapRange storeXY.posts := ⟨[("X", postX), ("Y", postY)], List.Perm.swap _ _ _⟩

/-- The iteration of `storeXY` that visits `Y` before `X`. -/
def rangeYX : MapRange storeXY.posts := ⟨[("Y", postY), ("X", postX)], List.Perm.refl _⟩

end store

/-! ## Search in the words of the specification -/

namespace store

/-- In the words of the specification: `text` contains `q` case-insensitively, that
is, the lower-cased `q` occurs in the lower-cased `text` as a run of consecutive
runes. -/
def ContainsFold (u : CaseTables) (text q : String) : Prop :=
  (strings.ToLower u q).data <:+: (strings.ToLower u text).data

/-- In the words of the specification: `a` equals `b` case-insensitively, that is,
rune by rune the two are equal or case variants of each other. -/
def EqFold (u : CaseTables) (a b : String) : Prop :=
  List.Forall₂ (fun x y => x = y ∨ u.sameFold x y = true) a.data b.data

/-- In the words of the specification: the posts a search for `q` and `ts` selects. -/
def SearchSpec (u : CaseTables) (q : String) (ts : List String) (p : Post) : Prop :=
  (q = "" ∨ ContainsFold u p.Title q ∨ ContainsFold u p.Content q)
  ∧ (ts = [] ∨ ∃ t ∈ ts, ∃ pt ∈ p.Tags, EqFold u t pt)

/-- The sequence `result` consists of exactly the entries of `s` whose post satisfies
`P`, each entry taken once. -/
def ReturnsExactly (s : ReadStore) (result : List Post) (P : Post → Prop) : Prop :=
  ∃ picked : List (String × Post),
    (picked.map Prod.fst).Nodup ∧ result = picked.map Prod.snd ∧
    ∀ en : String × Post, en ∈ picked ↔ en ∈ s.posts.entries ∧ P en.2

end store

/-! ## Facts about the Go map model -/

namespace GoMap

variable {V : Type}

/-- The keys of a filtered entry list are still pairwise distinct. -/
theorem nodup_filter_keys (l : List (String × V)) (p : String × V → Bool)
    (h : (l.map Prod.fst).Nodup) : ((l.filter p).map Prod.fst).Nodup :=
  ((List.filter_sublist l).map Prod.fst).nodup h

theorem lookup_filter_ne (l : List (String × V)) (k k' : String) (h : k' ≠ k) :
    List.lookup k' (l.filter (fun e => !decide (e.1 = k))) = List.lookup k' l := by
  induction l with
  | nil => rfl
  | cons a t ih =>
    obtain ⟨ak, av⟩ := a
    by_cases hak : ak = k
    · subst hak
      have hne : (k' == ak) = false := by simpa using h
      simp [List.filter_cons, List.lookup_cons, hne, ih]
    · by_cases hk' : k' = ak
      · subst hk'
        simp [List.filter_cons, List.lookup_cons, hak]
      · have hne : (k' == ak) = false := by simpa using hk'
        simp [List.filter_cons, List.lookup_cons, hak, hne, ih]

theorem lookup_filter_self (l : List (String × V)) (k : String) :
    List.lookup k (l.filter (fun e => !decide (e.1 = k))) = none := by
  induction l with
  | nil => rfl
  | cons a t ih =>
    obtain ⟨ak, av⟩ := a
    by_cases hak : ak = k
    · simp [List.filter_cons, hak, ih]
    · have hne : (k == ak) = false := by simpa using fun h : k = ak => hak h.symm
      simp [List.filter_cons, List.lookup_cons, hak, hne, ih]

theorem lookup_eq_none_iff (l : List (String × V)) (k : String) :
    List.lookup k l = none ↔ ∀ e ∈ l, e.1 ≠ k := by
  induction l with
  | nil => simp
  | cons a t ih =>
    obtain ⟨ak, av⟩ := a
    by_cases hak : k = ak
    · subst hak
      simp [List.lookup_cons]
    · have hne : (k == ak) = false := by simpa using hak
      simp [List.lookup_cons, hne, ih, Ne.symm hak]

theorem lookup_eq_some_iff (l : List (String × V)) (hl : (l.map Prod.fst).Nodup)
    (k : String) (v : V) : List.lookup k l = some v ↔ (k, v) ∈ l := by
  induction l with
  | nil => simp
  | cons a t ih =>
    obtain ⟨ak, av⟩ := a
    rw [List.map_cons, List.nodup_cons] at hl
    by_cases hak : k = ak
    · subst hak
      have hnot : ∀ w, (k, w) ∉ t := fun w hw => hl.1 (List.mem_map.2 ⟨(k, w), hw, rfl⟩)
      simp [List.lookup_cons, hnot, eq_comm]
    · have hne : (k == ak) = false := by simpa using hak
      simp [List.lookup_cons, hne, ih hl.2, hak]

theorem filter_ne_eq_self (l : List (String × V)) (k : String)
    (h : List.lookup k l = none) : l.filter (fun e => !decide (e.1 = k)) = l := by
  rw [List.filter_eq_self]
  intro e he
  simpa using (lookup_eq_none_iff l k).1 h e he

theorem length_filter_ne (l : List (String × V)) (hl : (l.map Prod.fst).Nodup)
    (k : String) (v : V) (h : List.lookup k l = some v) :
    (l.filter (fun e => !decide (e.1 = k))).length + 1 = l.length := by
  induction l with
  | nil => simp at h
  | cons a t ih =>
    obtain ⟨ak, av⟩ := a
    rw [List.map_cons, List.nodup_cons] at hl
    by_cases hak : ak = k
    · subst hak
      have hnone : List.lookup ak t = none := by
        rw [lookup_eq_none_iff]
        intro e he hek
        exact hl.1 (List.mem_map.2 ⟨e, he, hek⟩)
      simp [List.filter_cons, filter_ne_eq_self t ak hnone]
    · have hne : (k == ak) = false := by simpa using fun h : k = ak => hak h.symm
      rw [List.lookup_cons, hne] at h
      simp [List.filter_cons, hak, ih hl.2 h]

theorem lookup_modify_self (l : List (String × V)) (k : String) (f : V → V) :
    List.lookup k (l.map (fun e => if e.1 = k then (e.1, f e.2) else e))
      = (List.lookup k l).map f := by
  induction l with
  | nil => rfl
  | cons a t ih =>
    obtain ⟨ak, av⟩ := a
    by_cases hak : ak = k
    · subst hak
      simp [List.lookup_cons]
    · have hne : (k == ak) = false := by simpa using fun h : k = ak => hak h.symm
      simp [List.lookup_cons, hak, hne, ih]

theorem lookup_modify_ne (l : List (String × V)) (k k' : String) (f : V → V) (h : k' ≠ k) :
    List.lookup k' (l.map (fun e => if e.1 = k then (e.1, f e.2) else e))
      = List.lookup k' l := by
  induction l with
  | nil => rfl
  | cons a t ih =>
    obtain ⟨ak, av⟩ := a
    by_cases hak : ak = k
    · subst hak
      have hne : (k' == ak) = false := by simpa using h
      simp [List.lookup_cons, hne, ih]
    · by_cases hk' : k' = ak
      · subst hk'
        simp [List.lookup_cons, hak]
      · have hne : (k' == ak) = false := by simpa using hk'
        simp [List.lookup_cons, hak, hne, ih]

theorem get_set_self (m : GoMap V) (k : String) (v : V) : (m.set k v).get k = some v := by
  simp [get, set, List.lookup_cons]

theorem get_set_ne (m : GoMap V) (k k' : String) (v : V) (h : k' ≠ k) :
    (m.set k v).get k' = m.get k' := by
  have hne : (k' == k) = false := by simpa using h
  simp only [get, set, List.lookup_cons, hne]
  exact lookup_filter_ne _ _ _ h

theorem get_delete_self (m : GoMap V) (k : String) : (m.delete k).get k = none :=
  lookup_filter_self _ _

theorem get_delete_ne (m : GoMap V) (k k' : String) (h : k' ≠ k) :
    (m.delete k).get k' = m.get k' :=
  lookup_filter_ne _ _ _ h

theorem delete_entries_of_absent (m : GoMap V) (k : String) (h : m.get k = none) :
    (m.delete k).entries = m.entries :=
  filter_ne_eq_self _ _ h

theorem len_delete_of_present (m : GoMap V) (k : String) (v : V) (h : m.get k = some v) :
    (m.delete k).len + 1 = m.len :=
  length_filter_ne _ m.nodup _ _ h

theorem get_modify_self (m : GoMap V) (k : String) (f : V → V) :
    (m.modify k f).get k = (m.get k).map f :=
  lookup_modify_self _ _ _

theorem get_modify_ne (m : GoMap V) (k k' : String) (f : V → V) (h : k' ≠ k) :
    (m.modify k f).get k' = m.get k' :=
  lookup_modify_ne _ _ _ _ h

theorem get_eq_some_iff (m : GoMap V) (k : String) (v : V) :
    m.get k = some v ↔ (k, v) ∈ m.entries :=
  lookup_eq_some_iff _ m.nodup _ _

theorem len_modify (m : GoMap V) (k : String) (f : V → V) : (m.modify k f).len = m.len := by
  simp [len, modify]

end GoMap

/-- A range over a map visits as many entries as the map holds. -/
theorem MapRange.length_order {V : Type} {m : GoMap V} (r : MapRange m) :
    r.order.length = m.len :=
  r.perm.length_eq

/-- A range over a map visits exactly the entries of the map. -/
theorem MapRange.mem_order {V : Type} {m : GoMap V} (r : MapRange m) (e : String × V) :
    e ∈ r.order ↔ e ∈ m.entries :=
  r.perm.mem_iff

/-- A range over a map visits no key twice. -/
theorem MapRange.nodup_keys {V : Type} {m : GoMap V} (r : MapRange m) :
    (r.order.map Prod.fst).Nodup :=
  ((r.perm.map Prod.fst).nodup_iff).2 m.nodup

theorem GoMap.eq_of_entries {V : Type} (m m' : GoMap V) (h : m.entries = m'.entries) :
    m = m' := by
  cases m; cases m'; cases h; rfl

/-! ## Facts about slicing and `ListPosts` -/

theorem sliceExpr_infix {α : Type} (xs ys : List α) (lo hi : Int)
    (h : sliceExpr xs lo hi = some ys) : ys <:+: xs := by
  unfold sliceExpr at h
  split at h
  · cases h
    exact (List.take_prefix _ _).isInfix.trans (List.drop_suffix _ _).isInfix
  · cases h

namespace store

theorem keyed_new (bus : event.Bus Handler) : (NewReadStore bus).1.Keyed := by
  intro en h
  simp [NewReadStore, GoMap.empty] at h

theorem keyed_handlePostCreated (e : event.Event) (s : ReadStore) (h : s.Keyed) :
    (ReadStore.handlePostCreated e s).Keyed := by
  intro en hen
  simp only [ReadStore.handlePostCreated, GoMap.set, List.mem_cons] at hen
  rcases hen with rfl | hen
  · rfl
  · exact h en (List.mem_filter.1 hen).1

theorem keyed_handlePostUpdated (e : event.Event) (s : ReadStore) (h : s.Keyed) :
    (ReadStore.handlePostUpdated e s).Keyed := by
  intro en hen
  unfold ReadStore.handlePostUpdated at hen
  split at hen
  · simp only [GoMap.modify, List.mem_map] at hen
    obtain ⟨a, ha, rfl⟩ := hen
    by_cases hk : a.1 = e.Data.ID
    · simp only [hk, if_true]
      rw [← hk]
      exact h a ha
    · simp only [hk, if_false]
      exact h a ha
  · exact h en hen

theorem keyed_handlePostDeleted (e : event.Event) (s : ReadStore) (h : s.Keyed) :
    (ReadStore.handlePostDeleted e s).Keyed := by
  intro en hen
  simp only [ReadStore.handlePostDeleted, GoMap.delete] at hen
  exact h en (List.mem_filter.1 hen).1

/-- Whatever the arguments, a call of `ListPosts` that returns reports the number of
entries as total and a contiguous piece of the visited sequence as page. -/
theorem ListPosts_some (s : ReadStore) (r : MapRange s.posts) (limit offset : Int)
    (page : List Post) (total : Int) (h : s.ListPosts r limit offset = some (page, total)) :
    total = (s.posts.len : Int) ∧ page <:+: r.order.map Prod.snd := by
  unfold ReadStore.ListPosts at h
  simp only [List.length_map, r.length_order] at h
  split at h
  · cases h
    exact ⟨rfl, List.nil_infix⟩
  · cases hs : sliceExpr (r.order.map Prod.snd) offset
        (if wrapInt (offset + limit) > (s.posts.len : Int) then (s.posts.len : Int)
          else wrapInt (offset + limit)) with
    | none => rw [hs] at h; cases h
    | some pg =>
      rw [hs] at h
      cases h
      exact ⟨rfl, sliceExpr_infix _ _ _ _ hs⟩

/-- Without wrap-around (`0 <= offset`, `0 < limit`, `offset + limit < 2^63`) the call
returns the `limit` entries after the first `offset` of the visited sequence. -/
theorem ListPosts_nowrap (s : ReadStore) (r : MapRange s.posts) (limit offset : Int)
    (ho : 0 ≤ offset) (hl : 0 < limit) (hsum : offset + limit < 2 ^ 63) :
    s.ListPosts r limit offset
      = some (((r.order.map Prod.snd).drop offset.toNat).take limit.toNat,
          (s.posts.len : Int)) := by
  have hw : wrapInt (offset + limit) = offset + limit := by
    unfold wrapInt; omega
  unfold ReadStore.ListPosts
  simp only [List.length_map, r.length_order, hw]
  have hlen : (r.order.map Prod.snd).length = s.posts.len := by
    simp [r.length_order]
  by_cases h1 : offset ≥ (s.posts.len : Int)
  · rw [if_pos h1]
    have : (r.order.map Prod.snd).drop offset.toNat = [] := by
      apply List.drop_eq_nil_of_le
      rw [hlen]; omega
    rw [this, List.take_nil]
  · rw [if_neg h1]
    by_cases h2 : offset + limit > (s.posts.len : Int)
    · rw [if_pos h2]
      unfold sliceExpr
      rw [if_pos ⟨ho, by omega, by rw [hlen]⟩]
      simp only [Option.map_some']
      congr 2
      rw [List.take_of_length_le, List.take_of_length_le]
      · rw [List.length_drop, hlen]; omega
      · rw [List.length_drop, hlen]; omega
    · rw [if_neg h2]
      unfold sliceExpr
      rw [if_pos ⟨ho, by omega, by rw [hlen]; omega⟩]
      simp only [Option.map_some']
      congr 3
      omega

/-- Without wrap-around the page has `min(limit, max(0, N - offset))` entries. -/
theorem ListPosts_nowrap_length (s : ReadStore) (r : MapRange s.posts) (limit offset : Int)
    (ho : 0 ≤ offset) (hl : 0 < limit) :
    ((((r.order.map Prod.snd).drop offset.toNat).take limit.toNat).length : Int)
      = min limit (max 0 ((s.posts.len : Int) - offset)) := by
  rw [List.length_take, List.length_drop, List.length_map, r.length_order]
  omega

end store

/-! ## Properties of the stores, the bus and the query handler -/

namespace store

variable {H : Type}

/-- C1: if `CreatePost` returns `(id, nil)`, it has published one event of kind
`post.created`, and applying `handlePostCreated` to that event, on any projection
state whatsoever, makes `GetPost(id)` report `found = true` with the post whose
`ID` is `id`, whose title, content, author and tags (same order) are the inputs, and
whose `CreatedAt` equals its `UpdatedAt`. -/
theorem createPost_then_getPost (ws : WriteStore H) (newID : String) (now : Int)
    (title content author : String) (tags : List String) (id : String)
    (hret : (ws.CreatePost newID now title content author tags).1 = (id, none)) :
    ∃ e : event.Event,
      (ws.CreatePost newID now title content author tags).2 = ws.bus.Publish e ∧
      e.Typ = event.PostCreated ∧
      ∀ s : ReadStore, ∃ t : Int,
        (ReadStore.handlePostCreated e s).GetPost id
          = (some
              { ID := id
                Title := title
                Content := content
                Author := author
                Tags := tags
                CreatedAt := t
                UpdatedAt := t }, true) := by
  simp only [WriteStore.CreatePost] at hret ⊢
  cases hx : ws.db.Exec insertSQL
      [.text newID, .text title, .text content, .text author,
        .text (strings.Join tags ","), .int now, .int now] with
  | error err =>
    rw [hx] at hret
    simp at hret
  | ok rows =>
    rw [hx] at hret
    simp only [Prod.mk.injEq, and_true] at hret
    subst hret
    refine ⟨_, rfl, rfl, fun s => ⟨now, ?_⟩⟩
    simp [ReadStore.GetPost, ReadStore.handlePostCreated, GoMap.get_set_self]

/-- C1, at the scenario of the specification: `Create("Hello", "World", "alice",
["go", "demo"])` against a database that accepts the insert. -/
theorem createPost_then_getPost_witness :
    ∃ e : event.Event,
      (WriteStore.CreatePost ⟨okDB, wiredBus⟩ "X" 5 "Hello" "World" "alice" ["go", "demo"]).2
        = wiredBus.Publish e ∧
      e.Typ = event.PostCreated ∧
      ∀ s : ReadStore, ∃ t : Int,
        (ReadStore.handlePostCreated e s).GetPost "X"
          = (some ⟨"X", "Hello", "World", "alice", ["go", "demo"], t, t⟩, true) :=
  createPost_then_getPost ⟨okDB, wiredBus⟩ "X" 5 "Hello" "World" "alice" ["go", "demo"] "X" rfl

/-- C2: `handlePostUpdated` on an event `e`.  If an entry is stored under
`e.Data.ID`, afterwards that entry has the event's title, content, tags and
updated-at and its old `ID`, author and created-at; every other key reads as before;
if no entry is stored under `e.Data.ID` the state is unchanged; in both cases the
number of entries is unchanged. -/
theorem handlePostUpdated_effect (s : ReadStore) (e : event.Event) :
    (∀ old : Post, s.GetPost e.Data.ID = (some old, true) →
        (ReadStore.handlePostUpdated e s).GetPost e.Data.ID
          = (some
              { ID := old.ID
                Title := e.Data.Title
                Content := e.Data.Content
                Author := old.Author
                Tags := e.Data.Tags
                CreatedAt := old.CreatedAt
                UpdatedAt := e.Data.UpdatedAt }, true))
    ∧ (∀ k : String, k ≠ e.Data.ID →
        (ReadStore.handlePostUpdated e s).GetPost k = s.GetPost k)
    ∧ ((s.GetPost e.Data.ID).2 = false → ReadStore.handlePostUpdated e s = s)
    ∧ (ReadStore.handlePostUpdated e s).posts.len = s.posts.len := by
  refine ⟨?_, ?_, ?_, ?_⟩
  · intro old hold
    have hget : s.posts.get e.Data.ID = some old := by
      simpa [ReadStore.GetPost] using (congrArg Prod.fst hold)
    simp [ReadStore.handlePostUpdated, ReadStore.GetPost, hget, GoMap.get_modify_self]
  · intro k hk
    unfold ReadStore.handlePostUpdated
    split
    · simp [ReadStore.GetPost, GoMap.get_modify_ne _ _ _ _ hk]
    · rfl
  · intro hnone
    have hget : s.posts.get e.Data.ID = none := by
      simpa [ReadStore.GetPost] using hnone
    simp [ReadStore.handlePostUpdated, hget]
  · unfold ReadStore.handlePostUpdated
    split
    · exact GoMap.len_modify _ _ _
    · rfl

/-- C2, on the store holding `X`: an update event for `X` that carries another author
and created-at changes title, content, tags and updated-at only; an update event
for `X` on the empty store changes nothing. -/
theorem handlePostUpdated_effect_witness :
    (ReadStore.handlePostUpdated evUpdateX storeX).GetPost "X"
        = (some ⟨"X", "Hello2", "World2", "alice", ["demo"], 5, 7⟩, true)
    ∧ ReadStore.handlePostUpdated evUpdateX wiredStore = wiredStore :=
  ⟨(handlePostUpdated_effect storeX evUpdateX).1 postX rfl,
   (handlePostUpdated_effect wiredStore evUpdateX).2.2.1 rfl⟩

end store

namespace store

/-- C3: `handlePostDeleted` on an event for `id`.  Afterwards `GetPost(id)` reports
`found = false`; every other key reads as before; in a store whose keys are the IDs
of the posts they hold, no page returned by any call of `ListPosts` contains a post
with that `ID`; if `id` was absent the state is unchanged; if it was present, the
total reported by `ListPosts` is smaller by exactly one (`ListPosts(10, 0)` returns
before and after, with totals `N` and `N - 1`), and deleting the only entry makes
`ListPosts(10, 0)` return the empty page with total `0`. -/
theorem handlePostDeleted_effect (s : ReadStore) (e : event.Event) :
    (ReadStore.handlePostDeleted e s).GetPost e.Data.ID = (none, false)
    ∧ (∀ k : String, k ≠ e.Data.ID →
        (ReadStore.handlePostDeleted e s).GetPost k = s.GetPost k)
    ∧ (s.Keyed →
        ∀ (r : MapRange (ReadStore.handlePostDeleted e s).posts) (limit offset : Int)
          (page : List Post) (total : Int),
          (ReadStore.handlePostDeleted e s).ListPosts r limit offset = some (page, total) →
          ∀ p ∈ page, p.ID ≠ e.Data.ID)
    ∧ ((s.GetPost e.Data.ID).2 = false → ReadStore.handlePostDeleted e s = s)
    ∧ ((s.GetPost e.Data.ID).2 = true →
        (∀ (r : MapRange s.posts) (r' : MapRange (ReadStore.handlePostDeleted e s).posts),
          ∃ page page' : List Post,
            s.ListPosts r 10 0 = some (page, (s.posts.len : Int)) ∧
            (ReadStore.handlePostDeleted e s).ListPosts r' 10 0
              = some (page', (s.posts.len : Int) - 1))
        ∧ (∀ (r : MapRange s.posts) (r' : MapRange (ReadStore.handlePostDeleted e s).posts)
            (limit offset limit' offset' : Int) (page page' : List Post) (total total' : Int),
            s.ListPosts r limit offset = some (page, total) →
            (ReadStore.handlePostDeleted e s).ListPosts r' limit' offset' = some (page', total') →
            total' = total - 1)
        ∧ (s.posts.len = 1 →
            ∀ r' : MapRange (ReadStore.handlePostDeleted e s).posts,
              (ReadStore.handlePostDeleted e s).ListPosts r' 10 0 = some ([], 0))) := by
  refine ⟨?_, ?_, ?_, ?_, ?_⟩
  · simp [ReadStore.GetPost, ReadStore.handlePostDeleted, GoMap.get_delete_self]
  · intro k hk
    simp [ReadStore.GetPost, ReadStore.handlePostDeleted, GoMap.get_delete_ne _ _ _ hk]
  · intro hkeyed r limit offset page total hcall p hp
    have hsub := (ListPosts_some _ r limit offset page total hcall).2
    obtain ⟨en, hen, rfl⟩ := List.mem_map.1 (hsub.subset hp)
    have hen' : en ∈ (s.posts.delete e.Data.ID).entries := (r.mem_order en).1 hen
    obtain ⟨hmem, hne⟩ := List.mem_filter.1 hen'
    rw [hkeyed en hmem]
    simpa using hne
  · intro habsent
    have hget : s.posts.get e.Data.ID = none := by
      simpa [ReadStore.GetPost] using habsent
    have : (ReadStore.handlePostDeleted e s).posts = s.posts :=
      GoMap.eq_of_entries _ _ (GoMap.delete_entries_of_absent _ _ hget)
    cases s
    simp only [ReadStore.handlePostDeleted] at this ⊢
    rw [this]
  · intro hpresent
    have hsome : (s.posts.get e.Data.ID).isSome = true := by
      simpa [ReadStore.GetPost] using hpresent
    obtain ⟨v, hv⟩ := Option.isSome_iff_exists.1 hsome
    have hlen : (ReadStore.handlePostDeleted e s).posts.len + 1 = s.posts.len :=
      GoMap.len_delete_of_present _ _ v hv
    have hlen' : (((ReadStore.handlePostDeleted e s).posts.len : Nat) : Int)
        = (s.posts.len : Int) - 1 := by omega
    refine ⟨?_, ?_, ?_⟩
    · intro r r'
      refine ⟨_, ((r'.order.map Prod.snd).drop (0 : Int).toNat).take (10 : Int).toNat,
        ListPosts_nowrap s r 10 0 (by decide) (by decide) (by decide), ?_⟩
      rw [ListPosts_nowrap _ r' 10 0 (by decide) (by decide) (by decide), hlen']
    · intro r r' limit offset limit' offset' page page' total total' h h'
      rw [(ListPosts_some _ r _ _ _ _ h).1, (ListPosts_some _ r' _ _ _ _ h').1]
      exact hlen'
    · intro hone r'
      have hz : (ReadStore.handlePostDeleted e s).posts.len = 0 := by omega
      have hnil : r'.order = [] := List.length_eq_zero.1 (by rw [r'.length_order, hz])
      rw [ListPosts_nowrap _ r' 10 0 (by decide) (by decide) (by decide), hz, hnil]
      rfl

/-- C3, on concrete stores: deleting `X` from the store holding `X` and `Y` leaves a
page without `X`, deleting `X` from the empty store changes nothing, and deleting
`X` from the store holding only `X` gives `ListPosts(10, 0)` total `0`. -/
theorem handlePostDeleted_effect_witness :
    (∀ p ∈ [postY], p.ID ≠ "X")
    ∧ ReadStore.handlePostDeleted evDeleteX wiredStore = wiredStore
    ∧ (ReadStore.handlePostDeleted evDeleteX storeX).ListPosts (MapRange.stored _) 10 0
        = some ([], 0) :=
  ⟨(handlePostDeleted_effect storeXY evDeleteX).2.2.1
      (keyed_handlePostCreated _ _ (keyed_handlePostCreated _ _ (keyed_new _)))
      (MapRange.stored _) 10 0 [postY] 1 rfl,
   (handlePostDeleted_effect wiredStore evDeleteX).2.2.2.1 rfl,
   ((handlePostDeleted_effect storeX evDeleteX).2.2.2.2 rfl).2.2 rfl (MapRange.stored _)⟩

end store

namespace store

/-- C4: with two entries stored, `ListPosts(limit, offset)` at `offset = 1` and
`limit = 2^63 - 1` does not return the page of `min(limit, max(0, 2 - 1)) = 1` entry:
`offset + limit` wraps to `-2^63`, the bound `end` is not clamped, and the slice
expression `all[1:end]` panics. -/
theorem listPosts_wrap_panics :
    (0 : Int) ≤ 1 ∧ (0 : Int) < 9223372036854775807 ∧ 9223372036854775807 < (2 : Int) ^ 63
    ∧ min (9223372036854775807 : Int) (max 0 ((storeXY.posts.len : Int) - 1)) = 1
    ∧ wrapInt (1 + 9223372036854775807) = -9223372036854775808
    ∧ storeXY.ListPosts rangeXY 9223372036854775807 1 = none := by
  refine ⟨by decide, by decide, by decide, by decide, by decide, by decide⟩

/-- C10: the query handler forwards a negative offset unchecked, and `ListPosts`
then panics in the slice expression `all[offset:end]`, on the empty store as on any
other: the request `Limit = 10, Offset = -1` has no response. -/
theorem handler_listPosts_negative_offset_panics :
    query.isInt32 10 ∧ query.isInt32 (-1)
    ∧ query.ListPosts wiredStore (MapRange.stored _) ⟨10, -1⟩ = none
    ∧ query.ListPosts storeXY rangeXY ⟨10, -1⟩ = none := by
  refine ⟨by decide, by decide, by decide, by decide⟩

end store

namespace store

/-- A negative offset makes `ListPosts` panic, whatever the store and the limit. -/
theorem ListPosts_negative_offset (s : ReadStore) (r : MapRange s.posts) (limit offset : Int)
    (h : offset < 0) : s.ListPosts r limit offset = none := by
  unfold ReadStore.ListPosts
  simp only [List.length_map]
  rw [if_neg (by omega)]
  unfold sliceExpr
  rw [if_neg (by omega)]
  rfl

/-- C6, as stated, fails: `ReadStore.ListPosts` itself substitutes nothing.  On the
store holding one post, `ListPosts(0, 0)` returns an empty page where
`ListPosts(10, 0)` returns the post, and `ListPosts(-1, 0)` panics. -/
theorem readStore_listPosts_no_default :
    storeX.ListPosts (MapRange.stored _) 0 0 = some ([], 1)
    ∧ storeX.ListPosts (MapRange.stored _) 10 0 = some ([postX], 1)
    ∧ storeX.ListPosts (MapRange.stored _) (-1) 0 = none := by
  refine ⟨by decide, by decide, by decide⟩

end store

namespace query

/-- C6, amended: the default limit is substituted by the query handler.  For every
projection state, every `int32` offset `>= 0` and every limit `<= 0`, the handler's
`ListPosts` answers as it does for limit `10`: the response carries
`min(10, max(0, N - offset))` posts and `Total = int32(N)`, which is `N` when
`N < 2^31`. -/
theorem handler_listPosts_default (s : store.ReadStore) (r : MapRange s.posts)
    (limit offset : Int) (hl : limit ≤ 0) (ho : 0 ≤ offset) (ho32 : isInt32 offset) :
    ListPosts s r ⟨limit, offset⟩ = ListPosts s r ⟨10, offset⟩
    ∧ ∃ resp : ListPostsResponse,
        ListPosts s r ⟨limit, offset⟩ = some resp
        ∧ (resp.Posts.length : Int) = min 10 (max 0 ((s.posts.len : Int) - offset))
        ∧ resp.Total = wrapInt32 (s.posts.len : Int)
        ∧ ((s.posts.len : Int) < 2 ^ 31 → resp.Total = (s.posts.len : Int)) := by
  have hsum : offset + 10 < 2 ^ 63 := by
    have := ho32.2
    omega
  have hcall := store.ListPosts_nowrap s r 10 offset ho (by decide) hsum
  have hlen := store.ListPosts_nowrap_length s r 10 offset ho (by decide)
  have h10 : ListPosts s r ⟨10, offset⟩
      = some ⟨(((r.order.map Prod.snd).drop offset.toNat).take (10 : Int).toNat).map toPb,
          wrapInt32 (s.posts.len : Int)⟩ := by
    have h10 : (if (10 : Int) ≤ 0 then (10 : Int) else 10) = 10 := by decide
    simp only [ListPosts, h10, hcall]
  have hsame : ListPosts s r ⟨limit, offset⟩ = ListPosts s r ⟨10, offset⟩ := by
    simp only [ListPosts, if_pos hl]
    rfl
  refine ⟨hsame, _, hsame.trans h10, ?_, rfl, ?_⟩
  · rw [List.length_map]
    exact hlen
  · intro hN
    show wrapInt32 (s.posts.len : Int) = (s.posts.len : Int)
    unfold wrapInt32
    omega

/-- C6, amended, on the store holding `X` and `Y`: the request `Limit = 0,
Offset = 1` is answered like `Limit = 10, Offset = 1`, with one post and total 2. -/
theorem handler_listPosts_default_witness :
    ListPosts store.storeXY store.rangeXY ⟨0, 1⟩ = ListPosts store.storeXY store.rangeXY ⟨10, 1⟩
    ∧ ∃ resp : ListPostsResponse,
        ListPosts store.storeXY store.rangeXY ⟨0, 1⟩ = some resp
        ∧ (resp.Posts.length : Int) = min 10 (max 0 ((store.storeXY.posts.len : Int) - 1))
        ∧ resp.Total = wrapInt32 (store.storeXY.posts.len : Int)
        ∧ ((store.storeXY.posts.len : Int) < 2 ^ 31 →
            resp.Total = (store.storeXY.posts.len : Int)) :=
  handler_listPosts_default store.storeXY store.rangeXY 0 1 (by decide) (by decide) (by decide)

end query

namespace store

/-- C7, as stated, fails: the order of the results is the order in which the Go
runtime iterates over the map, which differs from one loop to the next.  On the
store holding `X` and `Y`, two calls of `ListPosts(1, 0)` return different pages,
the pages at offsets `0` and `1` of two calls both hold `X` and none holds `Y`, and
two calls of `SearchPosts("", [])` return the posts in different orders. -/
theorem result_order_not_deterministic :
    storeXY.ListPosts rangeXY 1 0 = some ([postX], 2)
    ∧ storeXY.ListPosts rangeYX 1 0 = some ([postY], 2)
    ∧ storeXY.ListPosts rangeXY 1 0 ≠ storeXY.ListPosts rangeYX 1 0
    ∧ storeXY.ListPosts rangeYX 1 1 = some ([postX], 2)
    ∧ ReadStore.SearchPosts CaseTables.ascii storeXY rangeXY "" [] = [postX, postY]
    ∧ ReadStore.SearchPosts CaseTables.ascii storeXY rangeYX "" [] = [postY, postX]
    ∧ ReadStore.SearchPosts CaseTables.ascii storeXY rangeXY "" []
        ≠ ReadStore.SearchPosts CaseTables.ascii storeXY rangeYX "" [] := by
  refine ⟨by decide, by decide, by decide, by decide, by decide, by decide, by decide⟩

/-- C7, amended: the results are determined up to the order in which the map is
iterated.  For every projection state and equal inputs, two calls of `SearchPosts`
return the same posts with the same multiplicities (one result is a permutation of
the other), two calls of `ListPosts` both return or both panic and, when they
return, give the same total and pages of the same length; and two calls that iterate
over the map in the same order return the same sequence. -/
theorem results_determined_up_to_order (u : CaseTables) (s : ReadStore)
    (r1 r2 : MapRange s.posts) (q : String) (ts : List String) (limit offset : Int) :
    (ReadStore.SearchPosts u s r1 q ts).Perm (ReadStore.SearchPosts u s r2 q ts)
    ∧ (s.ListPosts r1 limit offset).map (fun x => (x.1.length, x.2))
        = (s.ListPosts r2 limit offset).map (fun x => (x.1.length, x.2))
    ∧ (r1.order = r2.order →
        ReadStore.SearchPosts u s r1 q ts = ReadStore.SearchPosts u s r2 q ts
        ∧ s.ListPosts r1 limit offset = s.ListPosts r2 limit offset) := by
  refine ⟨?_, ?_, ?_⟩
  · unfold ReadStore.SearchPosts
    exact ((r1.perm.trans r2.perm.symm).map Prod.snd).filter _
  · unfold ReadStore.ListPosts sliceExpr
    simp only [List.length_map, r1.length_order, r2.length_order]
    split_ifs <;>
      simp [List.length_take, List.length_drop, r1.length_order, r2.length_order]
  · intro h
    unfold ReadStore.SearchPosts ReadStore.ListPosts
    rw [h]
    exact ⟨rfl, rfl⟩

/-- C7, amended, on the store holding `X` and `Y` iterated in its two orders. -/
theorem results_determined_up_to_order_witness :
    (ReadStore.SearchPosts CaseTables.ascii storeXY rangeXY "go" []).Perm
        (ReadStore.SearchPosts CaseTables.ascii storeXY rangeYX "go" [])
    ∧ (storeXY.ListPosts rangeXY 1 0).map (fun x => (x.1.length, x.2))
        = (storeXY.ListPosts rangeYX 1 0).map (fun x => (x.1.length, x.2))
    ∧ (ReadStore.SearchPosts CaseTables.ascii storeXY rangeXY "go" []
          = ReadStore.SearchPosts CaseTables.ascii storeXY rangeXY "go" []
        ∧ storeXY.ListPosts rangeXY 1 0 = storeXY.ListPosts rangeXY 1 0) :=
  ⟨(results_determined_up_to_order CaseTables.ascii storeXY rangeXY rangeYX "go" [] 1 0).1,
   (results_determined_up_to_order CaseTables.ascii storeXY rangeXY rangeYX "go" [] 1 0).2.1,
   (results_determined_up_to_order CaseTables.ascii storeXY rangeXY rangeXY "go" [] 1 0).2.2 rfl⟩

end store

/-! ## Search: the code against the specification's wording -/

namespace store

theorem contains_iff (s substr : String) :
    strings.Contains s substr = true ↔ substr.data <:+: s.data := by
  unfold strings.Contains
  rw [List.any_eq_true, List.infix_iff_prefix_suffix]
  constructor
  · rintro ⟨t, ht, hp⟩
    exact ⟨t, List.isPrefixOf_iff_prefix.1 hp, (List.mem_tails _ _).1 ht⟩
  · rintro ⟨t, hp, hs⟩
    exact ⟨t, (List.mem_tails _ _).2 hs, List.isPrefixOf_iff_prefix.2 hp⟩

theorem equalFoldRunes_iff (u : CaseTables) (a b : List Char) :
    strings.equalFoldRunes u a b = true
      ↔ List.Forall₂ (fun x y => x = y ∨ u.sameFold x y = true) a b := by
  induction a generalizing b with
  | nil =>
    cases b with
    | nil => simp [strings.equalFoldRunes]
    | cons y t => simp [strings.equalFoldRunes]
  | cons x s ih =>
    cases b with
    | nil => simp [strings.equalFoldRunes]
    | cons y t => simp [strings.equalFoldRunes, ih t]

theorem equalFold_iff (u : CaseTables) (a b : String) :
    strings.EqualFold u a b = true ↔ EqFold u a b :=
  equalFoldRunes_iff u a.data b.data

theorem hasAnyTag_iff (u : CaseTables) (postTags searchTags : List String) :
    ReadStore.hasAnyTag u postTags searchTags = true
      ↔ ∃ t ∈ searchTags, ∃ pt ∈ postTags, EqFold u t pt := by
  simp only [ReadStore.hasAnyTag, List.any_eq_true, equalFold_iff]

theorem toLower_eq_empty_iff (u : CaseTables) (q : String) :
    strings.ToLower u q = "" ↔ q = "" := by
  cases q with
  | mk d =>
    cases d with
    | nil => exact ⟨fun _ => rfl, fun _ => rfl⟩
    | cons a t =>
      constructor
      · intro h
        have := congrArg String.data h
        simp [strings.ToLower] at this
      · intro h
        have := congrArg String.data h
        simp at this

theorem searchMatch_iff (u : CaseTables) (q : String) (ts : List String) (p : Post) :
    ReadStore.searchMatch u (strings.ToLower u q) ts p = true ↔ SearchSpec u q ts p := by
  have hts : (ts.length == 0) = true ↔ ts = [] := by
    cases ts <;> simp
  simp only [ReadStore.searchMatch, SearchSpec, ContainsFold, Bool.and_eq_true, Bool.or_eq_true,
    beq_iff_eq, toLower_eq_empty_iff, contains_iff, hasAnyTag_iff, hts, or_assoc]

/-- The loop of `SearchPosts` returns exactly the entries that pass its test. -/
theorem searchPosts_returnsExactly (u : CaseTables) (s : ReadStore) (r : MapRange s.posts)
    (q : String) (ts : List String) (P : Post → Prop)
    (hP : ∀ p, ReadStore.searchMatch u (strings.ToLower u q) ts p = true ↔ P p) :
    ReturnsExactly s (ReadStore.SearchPosts u s r q ts) P := by
  refine ⟨r.order.filter (fun en => ReadStore.searchMatch u (strings.ToLower u q) ts en.2),
    GoMap.nodup_filter_keys _ _ r.nodup_keys, ?_, ?_⟩
  · unfold ReadStore.SearchPosts
    simp only [List.filter_map]
    rfl
  · intro en
    rw [List.mem_filter, r.mem_order, hP]

end store

namespace store

/-- C5: for every projection state, query `q` and tag list `ts`, `SearchPosts(q, ts)`
returns exactly the entries whose post satisfies (`q` is empty, or the lower-cased
title or the lower-cased content contains the lower-cased `q`) and (`ts` is empty,
or some tag of `ts` equals some tag of the post case-insensitively), each matching
entry once.  In particular `SearchPosts("", [])` returns every entry,
`SearchPosts(q, [])` exactly the entries whose title or content contains `q`
case-insensitively, and `SearchPosts("", [t])` exactly the entries that have the tag
`t` case-insensitively. -/
theorem searchPosts_correct (u : CaseTables) (s : ReadStore) (r : MapRange s.posts)
    (q : String) (ts : List String) (t : String) :
    ReturnsExactly s (ReadStore.SearchPosts u s r q ts) (SearchSpec u q ts)
    ∧ ReadStore.SearchPosts u s r "" [] = r.order.map Prod.snd
    ∧ ReturnsExactly s (ReadStore.SearchPosts u s r "" []) (fun _ => True)
    ∧ ReturnsExactly s (ReadStore.SearchPosts u s r q [])
        (fun p => ContainsFold u p.Title q ∨ ContainsFold u p.Content q)
    ∧ ReturnsExactly s (ReadStore.SearchPosts u s r "" [t])
        (fun p => ∃ pt ∈ p.Tags, EqFold u t pt) := by
  refine ⟨?_, ?_, ?_, ?_, ?_⟩
  · exact searchPosts_returnsExactly u s r q ts _ (searchMatch_iff u q ts)
  · unfold ReadStore.SearchPosts
    rw [List.filter_eq_self]
    intro p _
    exact (searchMatch_iff u "" [] p).2 ⟨Or.inl rfl, Or.inl rfl⟩
  · refine searchPosts_returnsExactly u s r "" [] _ (fun p => ?_)
    rw [searchMatch_iff]
    exact ⟨fun _ => trivial, fun _ => ⟨Or.inl rfl, Or.inl rfl⟩⟩
  · refine searchPosts_returnsExactly u s r q [] _ (fun p => ?_)
    rw [searchMatch_iff]
    constructor
    · rintro ⟨hq | hq, _⟩
      · subst hq
        exact Or.inl List.nil_infix
      · exact hq
    · intro h
      exact ⟨Or.inr h, Or.inl rfl⟩
  · refine searchPosts_returnsExactly u s r "" [t] _ (fun p => ?_)
    rw [searchMatch_iff]
    constructor
    · rintro ⟨_, h | h⟩
      · cases h
      · obtain ⟨t', ht', h⟩ := h
        rw [List.mem_singleton] at ht'
        subst ht'
        exact h
    · intro h
      exact ⟨Or.inl rfl, Or.inr ⟨t, List.mem_singleton.2 rfl, h⟩⟩

/-- The search of the store holding `X` (title `Hello`, tags `go`, `demo`) and `Y`
(title `Second`, tag `Go`), evaluated with the ASCII case tables. -/
theorem searchPosts_examples :
    ReadStore.SearchPosts CaseTables.ascii storeXY rangeXY "hELLo" [] = [postX]
    ∧ ReadStore.SearchPosts CaseTables.ascii storeXY rangeXY "" ["GO"] = [postX, postY]
    ∧ ReadStore.SearchPosts CaseTables.ascii storeXY rangeXY "text" ["demo", "go"] = [postY]
    ∧ ReadStore.SearchPosts CaseTables.ascii storeXY rangeXY "text" ["demo"] = [] := by
  refine ⟨by decide, by decide, by decide, by decide⟩

/-- C8: when the `UPDATE` statement of `UpdatePost(id, ...)` and the `DELETE`
statement of `DeletePost(id)` affect zero rows, each call returns the not-found
error `sql.ErrNoRows` and starts no handler invocation, so the projection state is
what it was before the call. -/
theorem update_delete_not_found (ws : WriteStore Handler) (now : Int)
    (id title content : String) (tags : List String) (s : ReadStore)
    (hupd : ws.db.Exec updateSQL
      [.text title, .text content, .text (strings.Join tags ","), .int now, .text id] = .ok 0)
    (hdel : ws.db.Exec deleteSQL [.text id] = .ok 0) :
    ws.UpdatePost now id title content tags = (some Error.ErrNoRows, [])
    ∧ ws.DeletePost id = (some Error.ErrNoRows, [])
    ∧ runStarted (ws.UpdatePost now id title content tags).2 s = s
    ∧ runStarted (ws.DeletePost id).2 s = s := by
  have h1 : ws.UpdatePost now id title content tags = (some Error.ErrNoRows, []) := by
    simp only [WriteStore.UpdatePost, hupd, if_true]
  have h2 : ws.DeletePost id = (some Error.ErrNoRows, []) := by
    simp only [WriteStore.DeletePost, hdel, if_true]
  refine ⟨h1, h2, ?_, ?_⟩
  · rw [h1]; rfl
  · rw [h2]; rfl

/-- C8, on the wired bus with a database in which no row matches and the projection
holding `X`. -/
theorem update_delete_not_found_witness :
    WriteStore.UpdatePost ⟨emptyDB, wiredBus⟩ 7 "Z" "T" "C" ["a", "b"]
        = (some Error.ErrNoRows, [])
    ∧ WriteStore.DeletePost ⟨emptyDB, wiredBus⟩ "Z" = (some Error.ErrNoRows, [])
    ∧ runStarted (WriteStore.UpdatePost ⟨emptyDB, wiredBus⟩ 7 "Z" "T" "C" ["a", "b"]).2 storeX
        = storeX
    ∧ runStarted (WriteStore.DeletePost ⟨emptyDB, wiredBus⟩ "Z").2 storeX = storeX :=
  update_delete_not_found ⟨emptyDB, wiredBus⟩ 7 "Z" "T" "C" ["a", "b"] storeX rfl rfl

end store

namespace event

variable {H : Type}

theorem registered_subscribe_self (b : Bus H) (k : String) (h : H) :
    (b.Subscribe k h).registered k = b.registered k ++ [h] := by
  simp [Bus.registered, Bus.Subscribe, GoMap.get_set_self]

theorem get_subscribe_ne (b : Bus H) (k k' : String) (h : H) (hk : k' ≠ k) :
    (b.Subscribe k h).handlers.get k' = b.handlers.get k' := by
  simp [Bus.Subscribe, GoMap.get_set_ne _ _ _ _ hk]

theorem publish_eq_map (b : Bus H) (e : Event) :
    b.Publish e = (b.registered e.Typ).map (fun g => (g, e)) := by
  unfold Bus.Publish Bus.registered
  cases b.handlers.get e.Typ <;> rfl

/-- C9: `Subscribe(k, h)` appends `h` at the end of the list of `k`, duplicates
included, and leaves the list of every other kind as it was.  `Publish(e)` starts one
invocation with `e` per element of the list registered for `e.Type`, in particular
two for a handler subscribed twice, none for a handler subscribed after the publish
(the invocations of a later publish are those of the earlier one plus the new
handler's), and none of a handler registered under another kind only. -/
theorem subscribe_publish (b : Bus H) (k : String) (h : H) (e : Event) :
    (b.Subscribe k h).registered k = b.registered k ++ [h]
    ∧ (∀ k' : String, k' ≠ k → (b.Subscribe k h).handlers.get k' = b.handlers.get k')
    ∧ b.Publish e = (b.registered e.Typ).map (fun g => (g, e))
    ∧ (b.Subscribe e.Typ h).Publish e = b.Publish e ++ [(h, e)]
    ∧ ((b.Subscribe e.Typ h).Subscribe e.Typ h).Publish e = b.Publish e ++ [(h, e), (h, e)]
    ∧ (k ≠ e.Typ → (b.Subscribe k h).Publish e = b.Publish e)
    ∧ (∀ inv ∈ b.Publish e, inv.1 ∈ b.registered e.Typ ∧ inv.2 = e) := by
  refine ⟨registered_subscribe_self b k h, fun k' hk => get_subscribe_ne b k k' h hk,
    publish_eq_map b e, ?_, ?_, ?_, ?_⟩
  · simp [publish_eq_map, registered_subscribe_self]
  · simp [publish_eq_map, registered_subscribe_self]
  · intro hk
    simp [publish_eq_map, Bus.registered, get_subscribe_ne b k e.Typ h (Ne.symm hk)]
  · intro inv hinv
    rw [publish_eq_map] at hinv
    obtain ⟨g, hg, rfl⟩ := List.mem_map.1 hinv
    exact ⟨hg, rfl⟩

end event

namespace store

/-- C9, on the bus wired by `NewReadStore`: a created event starts the single
invocation of `handlePostCreated`; after a second subscription of the update handler
under `post.created` it starts two invocations; a subscription under another kind
adds none. -/
theorem subscribe_publish_witness :
    (wiredBus.Subscribe event.PostUpdated ReadStore.handlePostDeleted).handlers.get
        event.PostCreated = wiredBus.handlers.get event.PostCreated
    ∧ (wiredBus.Subscribe event.PostUpdated ReadStore.handlePostDeleted).Publish evCreateX
        = wiredBus.Publish evCreateX
    ∧ wiredBus.Publish evCreateX = [(ReadStore.handlePostCreated, evCreateX)] :=
  ⟨(event.subscribe_publish wiredBus event.PostUpdated ReadStore.handlePostDeleted
      evCreateX).2.1 event.PostCreated (by decide),
   (event.subscribe_publish wiredBus event.PostUpdated ReadStore.handlePostDeleted
      evCreateX).2.2.2.2.2.1 (by decide),
   rfl⟩

end store

/-! ## Further facts: pages without wrap-around, totality, convergence -/

namespace store

/-- Without wrap-around (`0 <= offset`, `0 < limit`, `offset + limit < 2^63`),
`ListPosts` returns total `N` and a page of `min(limit, max(0, N - offset))` posts,
which are the posts of consecutive entries of the iteration, no entry taken twice. -/
theorem ListPosts_page_nowrap (s : ReadStore) (r : MapRange s.posts) (limit offset : Int)
    (ho : 0 ≤ offset) (hl : 0 < limit) (hsum : offset + limit < 2 ^ 63) :
    ∃ seg : List (String × Post),
      seg <:+: r.order ∧ (seg.map Prod.fst).Nodup ∧ (∀ en ∈ seg, en ∈ s.posts.entries)
      ∧ s.ListPosts r limit offset = some (seg.map Prod.snd, (s.posts.len : Int))
      ∧ (seg.length : Int) = min limit (max 0 ((s.posts.len : Int) - offset)) := by
  have hinf : (r.order.drop offset.toNat).take limit.toNat <:+: r.order :=
    (List.take_prefix _ _).isInfix.trans (List.drop_suffix _ _).isInfix
  refine ⟨(r.order.drop offset.toNat).take limit.toNat, hinf, ?_, ?_, ?_, ?_⟩
  · exact (hinf.sublist.map Prod.fst).nodup r.nodup_keys
  · intro en hen
    exact (r.mem_order en).1 (hinf.subset hen)
  · rw [ListPosts_nowrap s r limit offset ho hl hsum, List.map_take, List.map_drop]
  · have := ListPosts_nowrap_length s r limit offset ho hl
    rw [← List.map_drop, ← List.map_take, List.length_map] at this
    exact this

/-- For every projection state the created event published on the wired bus starts
the single invocation of `handlePostCreated`, so that once the started invocations
have run `GetPost` of the returned identifier finds the created post. -/
theorem createPost_converges (db : DB) (newID : String) (now : Int)
    (title content author : String) (tags : List String) (id : String) (s : ReadStore)
    (hret : (WriteStore.CreatePost ⟨db, wiredBus⟩ newID now title content author tags).1
      = (id, none)) :
    (runStarted
        (WriteStore.CreatePost ⟨db, wiredBus⟩ newID now title content author tags).2 s).GetPost id
      = (some ⟨id, title, content, author, tags, now, now⟩, true) := by
  simp only [WriteStore.CreatePost] at hret ⊢
  cases hx : db.Exec insertSQL
      [.text newID, .text title, .text content, .text author,
        .text (strings.Join tags ","), .int now, .int now] with
  | error err =>
    rw [hx] at hret
    simp at hret
  | ok rows =>
    rw [hx] at hret
    simp only [Prod.mk.injEq, and_true] at hret
    subst hret
    show (ReadStore.handlePostCreated _ s).GetPost newID = _
    simp [ReadStore.GetPost, ReadStore.handlePostCreated, GoMap.get_set_self]

/-- The scenario of the specification, with the started invocations run after each
command: create, read, update, read, delete, read and list. -/
theorem scenario_create_update_delete :
    (runStarted (WriteStore.CreatePost ⟨okDB, wiredBus⟩ "X" 5 "Hello" "World" "alice"
        ["go", "demo"]).2 wiredStore).GetPost "X" = (some postX, true)
    ∧ (runStarted (WriteStore.UpdatePost ⟨okDB, wiredBus⟩ 7 "X" "Hello2" "World2"
        ["demo"]).2 storeX).GetPost "X"
        = (some ⟨"X", "Hello2", "World2", "alice", ["demo"], 5, 7⟩, true)
    ∧ (runStarted (WriteStore.DeletePost ⟨okDB, wiredBus⟩ "X").2 storeX).GetPost "X"
        = (none, false)
    ∧ (runStarted (WriteStore.DeletePost ⟨okDB, wiredBus⟩ "X").2 storeX).ListPosts
        (MapRange.stored _) 10 0 = some ([], 0) := by
  refine ⟨by decide, by decide, by decide, by decide⟩

end store

namespace query

/-- For a request with `int32` fields and an offset `>= 0` the handler's `ListPosts`
returns a response. -/
theorem handler_listPosts_total (s : store.ReadStore) (r : MapRange s.posts)
    (req : ListPostsRequest) (hl32 : isInt32 req.Limit) (ho32 : isInt32 req.Offset)
    (ho : 0 ≤ req.Offset) : ∃ resp : ListPostsResponse, ListPosts s r req = some resp := by
  have h1 := hl32.2
  have h2 := ho32.2
  have hpos : 0 < (if req.Limit ≤ 0 then (10 : Int) else req.Limit) := by
    split <;> omega
  have hsum : req.Offset + (if req.Limit ≤ 0 then (10 : Int) else req.Limit) < 2 ^ 63 := by
    split <;> omega
  have hcall := store.ListPosts_nowrap s r _ req.Offset ho hpos hsum
  simp only [ListPosts, hcall]
  exact ⟨_, rfl⟩

end query
